import Mathlib

/-!
Verification of the incremental follow pipeline of
`GitHub_Follower_Bot_Automated` (`src/bot.py`, `src/check_all_followers.py`),
as a shallow embedding in Lean 4.

The embedding models the pure decision logic of the source:

* `follow_user` — the retry loop of `bot.py:follow_user` (lines 168-203),
  parametrised by the sequence of HTTP outcomes per attempt and by the
  random jitter drawn on each backoff sleep;
* `main_step` / `main_run` — the per-follower body of the `while True`
  scan loop of `bot.py:main` (lines 243-307): the `resume` sentinel flag,
  the followed-set dedupe, the cursor (`last_checked_follower`) update on
  every attempted follow, and the counter update on every successful one;
* `bot_low_quota_sleep` — the low-quota guard of `bot.py:main`
  (lines 237-241 and 313-317);
* `caf_assumed_remaining` / `caf_can_follow_now` — the rate-limit-failure
  handling of `check_all_followers.py:main` (lines 172-184);
* `make_batches` / `run_batches` — modelled from the spec (see their doc
  comments): the batching stage exercised by
  `src/pytests/test_bot.py:test_process_followers_in_batches` whose
  implementation (`process_followers_in_batches`) is not under `src/`.
-/

/-! ## Configuration constants (bot.py lines 24-42) -/

def MAX_RETRIES : Nat := 5

def RETRY_BACKOFF_FACTOR : ℚ := 2

def RATE_LIMIT_THRESHOLD : ℤ := 100

def DELAY_ON_RATE_LIMIT : ℤ := 300

/-! ## HTTP outcomes for the follow call (bot.py:follow_user) -/

/-- Outcome of one `requests.put` in `follow_user`: an HTTP status code
together with whether the body contains the rate-limit / abuse-detection
text inspected by `handle_rate_limit`, or a `RequestException`. -/
inductive HttpResp where
  | http (code : Nat) (rate_limit_text : Bool)
  | net_err
deriving DecidableEq

/-- `bot.py:handle_rate_limit` (lines 130-146), restricted to its pure
decision: returns `true` exactly when the response is a 403 carrying the
rate-limit/abuse text, or a 429 (the sleeping side effect is elided). -/
def handle_rate_limit : HttpResp → Bool
  | .http 403 t => t
  | .http 429 _ => true
  | _ => false

/-- Result of `follow_user`: the returned boolean, the number of attempts
consumed, and the exponential-backoff sleep durations performed in the
`RequestException` branch (line 199), in order.  The rate-limit sleeps of
the 403/429 branches are separate server-driven waits and are not part of
this backoff trace. -/
structure FollowOutcome where
  success : Bool
  attempts_used : Nat
  backoff_sleeps : List ℚ
deriving DecidableEq

/-- The `for attempt in range(1, MAX_RETRIES + 1)` body of
`bot.py:follow_user` (lines 176-203) over the remaining attempt numbers.
`resp a` is the outcome of the PUT issued on attempt `a`, and `jitter a`
the value drawn by `random.uniform(0, 1)` if attempt `a` backs off. -/
def follow_user_go (resp : Nat → HttpResp) (jitter : Nat → ℚ) :
    List Nat → FollowOutcome
  | [] => ⟨false, 0, []⟩
  | attempt :: rest =>
    match resp attempt with
    | .net_err =>
        let o := follow_user_go resp jitter rest
        ⟨o.success, o.attempts_used + 1,
          (RETRY_BACKOFF_FACTOR ^ attempt + jitter attempt) :: o.backoff_sleeps⟩
    | .http code t =>
        if code = 204 then ⟨true, 1, []⟩
        else if code = 401 then ⟨false, 1, []⟩
        else if code = 403 ∧ handle_rate_limit (.http code t) = true then
          let o := follow_user_go resp jitter rest
          ⟨o.success, o.attempts_used + 1, o.backoff_sleeps⟩
        else if code = 429 then
          let o := follow_user_go resp jitter rest
          ⟨o.success, o.attempts_used + 1, o.backoff_sleeps⟩
        else ⟨false, 1, []⟩

/-- `bot.py:follow_user` (lines 168-203): run the attempt loop for
attempts `1, …, MAX_RETRIES`; falling off the loop returns `False`. -/
def follow_user (resp : Nat → HttpResp) (jitter : Nat → ℚ) : FollowOutcome :=
  follow_user_go resp jitter (List.range' 1 MAX_RETRIES)

/-! ## The main scan loop of bot.py:main -/

/-- One element of a fetched followers page: the `login` field of the
JSON record, absent when the key is missing (`follower.get('login')`). -/
structure FollowerRecord where
  login : Option String
deriving DecidableEq

/-- The mutable state of `bot.py:main` relevant to the scan loop, plus the
observation traces `attempts` (logins passed to `follow_user`, in order)
and `successes` (logins whose follow returned `True`, in order).
`followed_users`, `last_checked` and `counter` model the persisted
`followers.txt`, `last_checked_follower.txt` and `follower_counter.txt`,
which the loop rewrites eagerly at each step. -/
structure LoopState where
  resume : Bool
  followed_users : List String
  last_checked : Option String
  counter : Nat
  attempts : List String
  successes : List String
deriving DecidableEq

/-- The body of `for follower in followers` in `bot.py:main`
(lines 274-307).  `fr u` abstracts the boolean result of
`follow_user(u)`; `cursor0` is the `last_checked_follower` value loaded at
startup (line 219), which the sentinel comparison on line 281 reads — it
is a run-local Python variable never reassigned during the run. -/
def main_step (fr : String → Bool) (cursor0 : Option String)
    (s : LoopState) (r : FollowerRecord) : LoopState :=
  match r.login with
  | none => s
  | some u =>
    if u = "" then s
    else if s.resume = false then
      if cursor0 = some u then { s with resume := true } else s
    else if u ∈ s.followed_users then s
    else
      let s1 := { s with attempts := s.attempts ++ [u], last_checked := some u }
      if fr u then
        { s1 with followed_users := s1.followed_users ++ [u],
                  counter := s1.counter + 1,
                  successes := s1.successes ++ [u] }
      else s1

/-- The state of `bot.py:main` on entry to the scan loop:
`resume = False if last_checked_follower else True` (line 243), followed
set, counter and cursor as loaded from the state files. -/
def init_state (cursor0 : Option String) (followed0 : List String)
    (counter0 : Nat) : LoopState :=
  { resume := cursor0.isNone
    followed_users := followed0
    last_checked := cursor0
    counter := counter0
    attempts := []
    successes := [] }

/-- A full run of the scan loop of `bot.py:main` over the concatenation of
all fetched pages (the `resume` flag and all state persist across page
boundaries in the source, so the page structure is irrelevant to the
per-record logic). -/
def main_run (fr : String → Bool) (cursor0 : Option String)
    (followed0 : List String) (counter0 : Nat)
    (recs : List FollowerRecord) : LoopState :=
  recs.foldl (main_step fr cursor0) (init_state cursor0 followed0 counter0)

/-- Page records all of whose `login` fields are present. -/
def mkRecs (ls : List String) : List FollowerRecord :=
  ls.map (fun u => ⟨some u⟩)

/-! ## Rate-limit query handling by the two callers -/

/-- The low-quota guard of `bot.py:main` (lines 237-241, 313-317):
given the result of `check_rate_limit()` — `none` models the
`(None, None)` returned on a failed query (lines 164-166) — and the
current time, returns the sleep duration performed, or `none` when the
pipeline does not sleep.  The guard is
`if remaining is not None and remaining < RATE_LIMIT_THRESHOLD`. -/
def bot_low_quota_sleep (rl : Option (ℤ × ℤ)) (now : ℤ) : Option ℤ :=
  match rl with
  | none => none
  | some (remaining, reset) =>
      if remaining < RATE_LIMIT_THRESHOLD then
        some (max (reset - now) DELAY_ON_RATE_LIMIT)
      else none

/-- `check_all_followers.py:main` lines 178-181: a failed rate-limit query
(`remaining_requests is None`) is replaced by `0`. -/
def caf_assumed_remaining (rl : Option (ℤ × ℤ)) : ℤ :=
  match rl with
  | none => 0
  | some (remaining, _) => remaining

/-- `check_all_followers.py:main` lines 172-184: followers left to follow
(clamped at 0) capped by the assumed remaining quota. -/
def caf_can_follow_now (total_followers already_followed : ℤ)
    (rl : Option (ℤ × ℤ)) : ℤ :=
  min (max (total_followers - already_followed) 0) (caf_assumed_remaining rl)

/-! ## Batching stage (modelled from the spec) -/

/-- Modelled from the spec: `process_followers_in_batches` is imported and
exercised by `src/pytests/test_bot.py` but its implementation is not under
`src/`; spec §4.2 step 4 says "Partition the reversed sequence into
fixed-size batches".  Fuel-structural chunking: the first `n` logins form
a batch, then the rest is chunked; `l.length` is enough fuel for any
positive `n`. -/
def make_batches_go (n : Nat) : Nat → List String → List (List String)
  | 0, _ => []
  | _ + 1, [] => []
  | fuel + 1, x :: xs => (x :: xs).take n :: make_batches_go n fuel ((x :: xs).drop n)

/-- Modelled from the spec (§4.2 step 4): partition a new-followers
sequence into batches of size `n`, the final batch possibly smaller. -/
def make_batches (n : Nat) (l : List String) : List (List String) :=
  make_batches_go n l.length l

/-- Trace event of the batch-processing stage: a processed batch, or one
inter-batch sleep. -/
inductive BatchEvent where
  | batch (b : List String)
  | pause
deriving DecidableEq

/-- Whether a trace event is an inter-batch sleep. -/
def BatchEvent.isPause : BatchEvent → Bool
  | .pause => true
  | _ => false

/-- Modelled from the spec (§4.2 steps 5 and 8, and
`test_process_followers_in_batches`): process each batch in order and
sleep the inter-batch interval between consecutive batches — never after
the final batch. -/
def run_batches : List (List String) → List BatchEvent
  | [] => []
  | [b] => [.batch b]
  | b :: b2 :: rest => .batch b :: .pause :: run_batches (b2 :: rest)

/-- Modelled from the spec: the whole batching stage
`process_followers_in_batches(new_followers, batch_size, sleep_interval)`
as the trace of batches processed and inter-batch sleeps performed. -/
def process_followers_in_batches (n : Nat) (l : List String) : List BatchEvent :=
  run_batches (make_batches n l)

/-! ## Basic lemmas about the scan step -/

/-- The persisted cursor of a loop state: the last attempted login when
there is one, otherwise the cursor loaded at startup. -/
def cursor_of (l : List String) (d : Option String) : Option String :=
  match l.getLast? with
  | some u => some u
  | none => d

lemma main_step_login_none (fr : String → Bool) (c0 : Option String)
    (s : LoopState) : main_step fr c0 s ⟨none⟩ = s := rfl

lemma main_step_login_empty (fr : String → Bool) (c0 : Option String)
    (s : LoopState) : main_step fr c0 s ⟨some ""⟩ = s := by
  simp [main_step]

lemma main_step_not_resumed (fr : String → Bool) (c0 : Option String)
    (s : LoopState) (r : FollowerRecord) (hres : s.resume = false)
    (hc : c0 ≠ r.login) : main_step fr c0 s r = s := by
  unfold main_step
  match r, hc with
  | ⟨none⟩, _ => rfl
  | ⟨some u⟩, hc =>
    simp only [hres]
    have : ¬ c0 = some u := fun h => hc (by simpa using h)
    simp [this]

lemma main_step_sentinel (fr : String → Bool) (c0 : Option String)
    (s : LoopState) (u : String) (hres : s.resume = false) (hu : u ≠ "")
    (hcu : c0 = some u) :
    main_step fr c0 s ⟨some u⟩ = { s with resume := true } := by
  simp [main_step, hres, hu, hcu]

lemma main_step_followed (fr : String → Bool) (c0 : Option String)
    (s : LoopState) (u : String) (hres : s.resume = true)
    (hmem : u ∈ s.followed_users) :
    main_step fr c0 s ⟨some u⟩ = s := by
  unfold main_step
  by_cases hu : u = "" <;> simp [hu, hres, hmem]

lemma main_step_attempt (fr : String → Bool) (c0 : Option String)
    (s : LoopState) (u : String) (hres : s.resume = true) (hu : u ≠ "")
    (hmem : u ∉ s.followed_users) :
    main_step fr c0 s ⟨some u⟩ =
      { resume := s.resume
        followed_users :=
          if fr u then s.followed_users ++ [u] else s.followed_users
        last_checked := some u
        counter := if fr u then s.counter + 1 else s.counter
        attempts := s.attempts ++ [u]
        successes := if fr u then s.successes ++ [u] else s.successes } := by
  unfold main_step
  simp only [hres, hu]
  by_cases hfr : fr u <;> simp [hfr, hmem]

lemma main_step_resume_true (fr : String → Bool) (c0 : Option String)
    (s : LoopState) (r : FollowerRecord) (hres : s.resume = true) :
    (main_step fr c0 s r).resume = true := by
  match r with
  | ⟨none⟩ => exact hres
  | ⟨some u⟩ =>
    by_cases hu : u = ""
    · rw [hu, main_step_login_empty]; exact hres
    · by_cases hmem : u ∈ s.followed_users
      · rw [main_step_followed fr c0 s u hres hmem]; exact hres
      · rw [main_step_attempt fr c0 s u hres hu hmem]; exact hres

/-! ## Fold lemmas: the run never reaches past an absent sentinel -/

lemma foldl_not_resumed (fr : String → Bool) (c0 : Option String) :
    ∀ (recs : List FollowerRecord) (s : LoopState), s.resume = false →
      (∀ r ∈ recs, c0 ≠ r.login) →
      recs.foldl (main_step fr c0) s = s := by
  intro recs
  induction recs with
  | nil => intro s _ _; rfl
  | cons r rest ih =>
    intro s hres hc
    have hstep : main_step fr c0 s r = s :=
      main_step_not_resumed fr c0 s r hres (hc r (by simp))
    simp only [List.foldl_cons, hstep]
    exact ih s hres (fun r' hr' => hc r' (by simp [hr']))

/-! ## Fold invariants: counter, successes, cursor, followed set -/

lemma main_step_counter (fr : String → Bool) (c0 : Option String)
    (s : LoopState) (r : FollowerRecord) :
    (main_step fr c0 s r).counter + s.successes.length =
      s.counter + (main_step fr c0 s r).successes.length := by
  match r with
  | ⟨none⟩ => rfl
  | ⟨some u⟩ =>
    by_cases hu : u = ""
    · rw [hu, main_step_login_empty]
    · cases hres : s.resume with
      | false =>
        by_cases hcu : c0 = some u
        · rw [main_step_sentinel fr c0 s u hres hu hcu]
        · rw [main_step_not_resumed fr c0 s ⟨some u⟩ hres (by simpa using hcu)]
      | true =>
        by_cases hmem : u ∈ s.followed_users
        · rw [main_step_followed fr c0 s u hres hmem]
        · rw [main_step_attempt fr c0 s u hres hu hmem]
          by_cases hfr : fr u <;> simp [hfr] <;> omega

lemma foldl_counter (fr : String → Bool) (c0 : Option String) :
    ∀ (recs : List FollowerRecord) (s : LoopState),
      (recs.foldl (main_step fr c0) s).counter + s.successes.length =
        s.counter + (recs.foldl (main_step fr c0) s).successes.length := by
  intro recs
  induction recs with
  | nil => intro s; rfl
  | cons r rest ih =>
    intro s
    have h1 := main_step_counter fr c0 s r
    have h2 := ih (main_step fr c0 s r)
    simp only [List.foldl_cons]
    omega

lemma main_step_successes_filter (fr : String → Bool) (c0 : Option String)
    (s : LoopState) (r : FollowerRecord)
    (h : s.successes = s.attempts.filter fr) :
    (main_step fr c0 s r).successes =
      (main_step fr c0 s r).attempts.filter fr := by
  match r with
  | ⟨none⟩ => exact h
  | ⟨some u⟩ =>
    by_cases hu : u = ""
    · rw [hu, main_step_login_empty]; exact h
    · cases hres : s.resume with
      | false =>
        by_cases hcu : c0 = some u
        · rw [main_step_sentinel fr c0 s u hres hu hcu]; exact h
        · rw [main_step_not_resumed fr c0 s ⟨some u⟩ hres (by simpa using hcu)]
          exact h
      | true =>
        by_cases hmem : u ∈ s.followed_users
        · rw [main_step_followed fr c0 s u hres hmem]; exact h
        · rw [main_step_attempt fr c0 s u hres hu hmem]
          by_cases hfr : fr u <;> simp [hfr, List.filter_append, h]

lemma foldl_successes_filter (fr : String → Bool) (c0 : Option String) :
    ∀ (recs : List FollowerRecord) (s : LoopState),
      s.successes = s.attempts.filter fr →
      (recs.foldl (main_step fr c0) s).successes =
        (recs.foldl (main_step fr c0) s).attempts.filter fr := by
  intro recs
  induction recs with
  | nil => intro s h; exact h
  | cons r rest ih =>
    intro s h
    simp only [List.foldl_cons]
    exact ih _ (main_step_successes_filter fr c0 s r h)

lemma main_step_cursor (fr : String → Bool) (c0 : Option String)
    (s : LoopState) (r : FollowerRecord)
    (h : s.last_checked = cursor_of s.attempts c0) :
    (main_step fr c0 s r).last_checked =
      cursor_of (main_step fr c0 s r).attempts c0 := by
  match r with
  | ⟨none⟩ => exact h
  | ⟨some u⟩ =>
    by_cases hu : u = ""
    · rw [hu, main_step_login_empty]; exact h
    · cases hres : s.resume with
      | false =>
        by_cases hcu : c0 = some u
        · rw [main_step_sentinel fr c0 s u hres hu hcu]; exact h
        · rw [main_step_not_resumed fr c0 s ⟨some u⟩ hres (by simpa using hcu)]
          exact h
      | true =>
        by_cases hmem : u ∈ s.followed_users
        · rw [main_step_followed fr c0 s u hres hmem]; exact h
        · rw [main_step_attempt fr c0 s u hres hu hmem]
          by_cases hfr : fr u <;>
            simp [hfr, cursor_of, List.getLast?_concat]

lemma foldl_cursor (fr : String → Bool) (c0 : Option String) :
    ∀ (recs : List FollowerRecord) (s : LoopState),
      s.last_checked = cursor_of s.attempts c0 →
      (recs.foldl (main_step fr c0) s).last_checked =
        cursor_of (recs.foldl (main_step fr c0) s).attempts c0 := by
  intro recs
  induction recs with
  | nil => intro s h; exact h
  | cons r rest ih =>
    intro s h
    simp only [List.foldl_cons]
    exact ih _ (main_step_cursor fr c0 s r h)

lemma main_step_followed_eq (fr : String → Bool) (c0 : Option String)
    (s : LoopState) (r : FollowerRecord) (f0 : List String)
    (h : s.followed_users = f0 ++ s.successes) :
    (main_step fr c0 s r).followed_users =
      f0 ++ (main_step fr c0 s r).successes := by
  match r with
  | ⟨none⟩ => exact h
  | ⟨some u⟩ =>
    by_cases hu : u = ""
    · rw [hu, main_step_login_empty]; exact h
    · cases hres : s.resume with
      | false =>
        by_cases hcu : c0 = some u
        · rw [main_step_sentinel fr c0 s u hres hu hcu]; exact h
        · rw [main_step_not_resumed fr c0 s ⟨some u⟩ hres (by simpa using hcu)]
          exact h
      | true =>
        by_cases hmem : u ∈ s.followed_users
        · rw [main_step_followed fr c0 s u hres hmem]; exact h
        · rw [main_step_attempt fr c0 s u hres hu hmem]
          by_cases hfr : fr u <;> simp [hfr, h]

lemma foldl_followed_eq (fr : String → Bool) (c0 : Option String)
    (f0 : List String) :
    ∀ (recs : List FollowerRecord) (s : LoopState),
      s.followed_users = f0 ++ s.successes →
      (recs.foldl (main_step fr c0) s).followed_users =
        f0 ++ (recs.foldl (main_step fr c0) s).successes := by
  intro recs
  induction recs with
  | nil => intro s h; exact h
  | cons r rest ih =>
    intro s h
    simp only [List.foldl_cons]
    exact ih _ (main_step_followed_eq fr c0 s r f0 h)

/-! ## The processing phase: what happens once the sentinel was passed -/

lemma foldl_resumed (fr : String → Bool) (c0 : Option String) :
    ∀ (ls : List String) (s : LoopState), s.resume = true → ls.Nodup →
      (∀ u ∈ ls, u ≠ "") →
      ((mkRecs ls).foldl (main_step fr c0) s).attempts =
          s.attempts ++ ls.filter (fun u => decide (u ∉ s.followed_users)) ∧
      ∀ v ∈ ((mkRecs ls).foldl (main_step fr c0) s).followed_users,
        v ∈ s.followed_users ∨ v ∈ ls := by
  intro ls
  induction ls with
  | nil =>
    intro s _ _ _
    exact ⟨by simp [mkRecs], fun v hv => Or.inl hv⟩
  | cons u rest ih =>
    intro s hres hnd hne
    have hu : u ≠ "" := hne u (by simp)
    have hurest : u ∉ rest := (List.nodup_cons.mp hnd).1
    have hrestnd : rest.Nodup := (List.nodup_cons.mp hnd).2
    have hrestne : ∀ v ∈ rest, v ≠ "" := fun v hv => hne v (by simp [hv])
    have hrecs : mkRecs (u :: rest) = ⟨some u⟩ :: mkRecs rest := rfl
    by_cases hmem : u ∈ s.followed_users
    · have hstep : main_step fr c0 s ⟨some u⟩ = s :=
        main_step_followed fr c0 s u hres hmem
      rw [hrecs]
      simp only [List.foldl_cons, hstep]
      obtain ⟨ha, hf⟩ := ih s hres hrestnd hrestne
      refine ⟨?_, fun v hv => ?_⟩
      · rw [ha, List.filter_cons]
        simp [hmem]
      · rcases hf v hv with h | h
        · exact Or.inl h
        · exact Or.inr (by simp [h])
    · rw [hrecs]
      simp only [List.foldl_cons, main_step_attempt fr c0 s u hres hu hmem]
      set s1 : LoopState :=
        { resume := s.resume
          followed_users :=
            if fr u then s.followed_users ++ [u] else s.followed_users
          last_checked := some u
          counter := if fr u then s.counter + 1 else s.counter
          attempts := s.attempts ++ [u]
          successes :=
            if fr u then s.successes ++ [u] else s.successes } with hs1
      have hres1 : s1.resume = true := by rw [hs1]; exact hres
      obtain ⟨ha, hf⟩ := ih s1 hres1 hrestnd hrestne
      have hfu1 : ∀ v ∈ rest,
          decide (v ∉ s1.followed_users) = decide (v ∉ s.followed_users) := by
        intro v hv
        have hvu : v ≠ u := fun h => hurest (h ▸ hv)
        rw [decide_eq_decide, hs1]
        by_cases hfr : fr u <;> simp [hfr, List.mem_append, hvu]
      refine ⟨?_, fun v hv => ?_⟩
      · rw [ha, List.filter_congr hfu1, List.filter_cons]
        have : decide (u ∉ s.followed_users) = true := by simpa using hmem
        simp only [this, if_true, hs1]
        simp
      · rcases hf v hv with h | h
        · rw [hs1] at h
          by_cases hfr : fr u
          · simp only [hfr, if_true, List.mem_append, List.mem_singleton] at h
            rcases h with h | h
            · exact Or.inl h
            · exact Or.inr (by simp [h])
          · simp only [hfr, if_false] at h
            exact Or.inl h
        · exact Or.inr (by simp [h])

lemma foldl_resumed_all_followed (fr : String → Bool) (c0 : Option String) :
    ∀ (ls : List String) (s : LoopState), s.resume = true →
      (∀ u ∈ ls, u = "" ∨ u ∈ s.followed_users) →
      (mkRecs ls).foldl (main_step fr c0) s = s := by
  intro ls
  induction ls with
  | nil => intro s _ _; rfl
  | cons u rest ih =>
    intro s hres hall
    have hrecs : mkRecs (u :: rest) = ⟨some u⟩ :: mkRecs rest := rfl
    have hstep : main_step fr c0 s ⟨some u⟩ = s := by
      rcases hall u (by simp) with h | h
      · rw [h]; exact main_step_login_empty fr c0 s
      · exact main_step_followed fr c0 s u hres h
    rw [hrecs]
    simp only [List.foldl_cons, hstep]
    exact ih s hres (fun v hv => hall v (by simp [hv]))

/-! ## Small helpers about getLast? -/

lemma getLast?_some_mem {α : Type} {l : List α} {a : α}
    (h : l.getLast? = some a) : a ∈ l := by
  obtain ⟨hne, hl⟩ := List.mem_getLast?_eq_getLast (show a ∈ l.getLast? from h)
  exact hl ▸ List.getLast_mem hne

lemma head_last_of_not_mem {α : Type} {a : α} {t : List α}
    (hmem : a ∉ t) (h : (a :: t).getLast? = some a) : t = [] := by
  cases t with
  | nil => rfl
  | cons b t' =>
    rw [List.getLast?_cons_cons] at h
    exact absurd (getLast?_some_mem h) hmem

/-! ## Claim theorems -/

/-- Claim C3: the persisted follow counter at the end of a run equals the
counter loaded at the start plus the number of follow actions that
returned success during the run; the successful follows are exactly the
attempted logins on which the follow call returned `True`, so failed or
skipped attempts never change the counter. -/
theorem counter_counts_successes (fr : String → Bool) (c0 : Option String)
    (followed0 : List String) (counter0 : Nat) (recs : List FollowerRecord) :
    (main_run fr c0 followed0 counter0 recs).counter =
        counter0 + (main_run fr c0 followed0 counter0 recs).successes.length ∧
    (main_run fr c0 followed0 counter0 recs).successes =
        (main_run fr c0 followed0 counter0 recs).attempts.filter fr := by
  constructor
  · have h1 := foldl_counter fr c0 recs (init_state c0 followed0 counter0)
    simp only [init_state, List.length_nil, Nat.add_zero] at h1
    exact h1
  · exact foldl_successes_filter fr c0 recs _ (by simp [init_state])

/-- Claim C4: in every run with at least one attempted follow, the cursor
persisted at run end is the login of the last follower for which a follow
was attempted, whether or not that attempt succeeded. -/
theorem cursor_is_last_attempted (fr : String → Bool) (c0 : Option String)
    (followed0 : List String) (counter0 : Nat) (recs : List FollowerRecord)
    (h : (main_run fr c0 followed0 counter0 recs).attempts ≠ []) :
    (main_run fr c0 followed0 counter0 recs).last_checked =
      (main_run fr c0 followed0 counter0 recs).attempts.getLast? := by
  have hc := foldl_cursor fr c0 recs (init_state c0 followed0 counter0)
    (by simp [init_state, cursor_of])
  rw [show main_run fr c0 followed0 counter0 recs =
        recs.foldl (main_step fr c0) (init_state c0 followed0 counter0) from rfl,
      hc]
  rcases hgl : (recs.foldl (main_step fr c0)
      (init_state c0 followed0 counter0)).attempts.getLast? with _ | u
  · exact absurd (List.getLast?_eq_none_iff.mp hgl) h
  · simp [cursor_of, hgl]

/-- Witness for claim C4 at a concrete input: one fetched follower, no
cursor; the attempt list is `["a"]` and the persisted cursor is `"a"`. -/
theorem cursor_is_last_attempted_witness :
    (main_run (fun _ => true) none [] 0 (mkRecs ["a"])).attempts ≠ [] ∧
    (main_run (fun _ => true) none [] 0 (mkRecs ["a"])).last_checked =
      (main_run (fun _ => true) none [] 0 (mkRecs ["a"])).attempts.getLast? :=
  ⟨by decide, cursor_is_last_attempted (fun _ => true) none [] 0 (mkRecs ["a"])
      (by decide)⟩

/-- Claim C10: a fetched record whose `login` field is absent, or equal to
the empty string, is skipped entirely: removing it from the page leaves
the whole run state — cursor, followed set, counter, and both traces —
unchanged. -/
theorem absent_login_skipped (fr : String → Bool) (c0 : Option String)
    (followed0 : List String) (counter0 : Nat)
    (l1 l2 : List FollowerRecord) :
    main_run fr c0 followed0 counter0 (l1 ++ ⟨none⟩ :: l2) =
        main_run fr c0 followed0 counter0 (l1 ++ l2) ∧
    main_run fr c0 followed0 counter0 (l1 ++ ⟨some ""⟩ :: l2) =
        main_run fr c0 followed0 counter0 (l1 ++ l2) := by
  unfold main_run
  constructor
  · rw [List.foldl_append, List.foldl_append, List.foldl_cons,
        main_step_login_none]
  · rw [List.foldl_append, List.foldl_append, List.foldl_cons,
        main_step_login_empty]

/-- Counterexample to claim C2 as stated: with persisted cursor `"z"` that
never appears among the fetched followers `["a", "b"]` and an empty
followed set, the run issues no follow attempt at all — in particular the
fetched, unfollowed login `"a"` is never attempted — instead of processing
all fetched followers as new. -/
theorem cursor_never_found_cex :
    (main_run (fun _ => true) (some "z") [] 0 (mkRecs ["a", "b"])).attempts
        = [] ∧
    "a" ∉ (main_run (fun _ => true) (some "z") [] 0
        (mkRecs ["a", "b"])).attempts ∧
    (main_run (fun _ => true) (some "z") [] 0 (mkRecs ["a", "b"])).counter
        = 0 := by
  decide

/-- Claim C2 as amended: when the persisted cursor is non-null but its
login is never encountered in any fetched page, the run does not fail,
but it processes none of the fetched followers: the `resume` flag never
flips, so every record is skipped and the final state equals the initial
state. -/
theorem cursor_never_found_noop (fr : String → Bool) (followed0 : List String)
    (counter0 : Nat) (c : String) (recs : List FollowerRecord)
    (hc : ∀ r ∈ recs, r.login ≠ some c) :
    main_run fr (some c) followed0 counter0 recs =
      init_state (some c) followed0 counter0 := by
  exact foldl_not_resumed fr (some c) recs _ rfl
    (fun r hr => (hc r hr).symm)

/-- Witness for claim C2 (amended) at a concrete input: cursor `"z"`,
fetched followers `["a", "b"]`. -/
theorem cursor_never_found_noop_witness :
    (∀ r ∈ mkRecs ["a", "b"], r.login ≠ some "z") ∧
    main_run (fun _ => true) (some "z") [] 0 (mkRecs ["a", "b"]) =
      init_state (some "z") [] 0 :=
  ⟨by decide, cursor_never_found_noop (fun _ => true) [] 0 "z"
      (mkRecs ["a", "b"]) (by decide)⟩

/-- Counterexample to claim C1 as stated: on the fetched page
`["d", "c", "b", "a"]` with cursor `"b"` at position 2, the claim predicts
the processed new-follower sequence `["c", "d"]` (the prefix before the
sentinel, reversed) and that no follower after the sentinel is processed;
the code instead attempts exactly `["a"]` — the suffix after the
sentinel. -/
theorem sentinel_prefix_cex :
    (main_run (fun _ => true) (some "b") [] 0
        (mkRecs ["d", "c", "b", "a"])).attempts = ["a"] ∧
    (main_run (fun _ => true) (some "b") [] 0
        (mkRecs ["d", "c", "b", "a"])).attempts ≠ ["c", "d"] ∧
    "a" ∈ (main_run (fun _ => true) (some "b") [] 0
        (mkRecs ["d", "c", "b", "a"])).attempts := by
  decide

/-- Claim C1 as amended: for a fetched follower sequence
`p1 ++ c :: p2` containing the cursor login `c` at position `p1.length`
(logins pairwise distinct and non-empty, followed set empty), the run
attempts exactly `p2` — the followers strictly after the sentinel, in
page order, with no reversal; everything up to and including the sentinel
is skipped. -/
theorem sentinel_suffix_processed (fr : String → Bool) (counter0 : Nat)
    (p1 p2 : List String) (c : String)
    (hnd : (p1 ++ c :: p2).Nodup) (hne : ∀ u ∈ p1 ++ c :: p2, u ≠ "") :
    (main_run fr (some c) [] counter0 (mkRecs (p1 ++ c :: p2))).attempts
      = p2 := by
  have hsplit := List.nodup_append.mp hnd
  have hc1 : c ∉ p1 := fun h => hsplit.2.2 h (by simp)
  have hp2nd : p2.Nodup := (List.nodup_cons.mp hsplit.2.1).2
  have hcne : c ≠ "" := hne c (by simp)
  have hp2ne : ∀ u ∈ p2, u ≠ "" := fun u hu => hne u (by simp [hu])
  have hmk : mkRecs (p1 ++ c :: p2) =
      mkRecs p1 ++ ⟨some c⟩ :: mkRecs p2 := by simp [mkRecs]
  rw [show main_run fr (some c) [] counter0 (mkRecs (p1 ++ c :: p2)) =
        (mkRecs (p1 ++ c :: p2)).foldl (main_step fr (some c))
          (init_state (some c) [] counter0) from rfl,
      hmk, List.foldl_append]
  have hskip : (mkRecs p1).foldl (main_step fr (some c))
      (init_state (some c) [] counter0) =
        init_state (some c) [] counter0 := by
    refine foldl_not_resumed fr (some c) (mkRecs p1) _ rfl ?_
    intro r hr
    obtain ⟨u, hu, rfl⟩ := List.mem_map.mp hr
    intro hcu
    have hcu' : c = u := by simpa using hcu
    exact hc1 (hcu' ▸ hu)
  rw [hskip, List.foldl_cons,
      main_step_sentinel fr (some c) _ c rfl hcne rfl]
  obtain ⟨ha, _⟩ := foldl_resumed fr (some c) p2
    { init_state (some c) [] counter0 with resume := true }
    rfl hp2nd hp2ne
  rw [ha]
  simp [init_state]

/-- Witness for claim C1 (amended) at a concrete input: page
`["d", "c", "b", "a"]` with cursor `"b"`; the run attempts exactly
`["a"]`, the suffix after the sentinel. -/
theorem sentinel_suffix_processed_witness :
    (["d", "c"] ++ "b" :: ["a"]).Nodup ∧
    (main_run (fun _ => true) (some "b") [] 0
        (mkRecs (["d", "c"] ++ "b" :: ["a"]))).attempts = ["a"] :=
  ⟨by decide, sentinel_suffix_processed (fun _ => true) 0 ["d", "c"] ["a"]
      "b" (by decide) (by decide)⟩

/-- Counterexample to claim C7 as stated: when the rate-limit query fails
(`check_rate_limit` returns `None, None`), `bot.py` skips the low-quota
sleep entirely, whereas assuming `remaining = 0` — as the claim demands —
would mandate the sleep (`0 < RATE_LIMIT_THRESHOLD`). -/
theorem rate_limit_failure_cex :
    bot_low_quota_sleep none 0 = none ∧
    (bot_low_quota_sleep (some (0, 0)) 0).isSome = true := by
  decide

/-- Claim C7 as amended: only `check_all_followers.py` assumes
`remaining = 0` on a failed rate-limit query (and consequently reports
that zero follows can be issued now); `bot.py`'s pipeline instead skips
the low-quota sleep whenever the query fails — `None` is never compared
against the threshold — while any successful query below the threshold
does trigger the sleep. -/
theorem rate_limit_failure_handling :
    (∀ now : ℤ, bot_low_quota_sleep none now = none) ∧
    caf_assumed_remaining none = 0 ∧
    (∀ total already : ℤ, caf_can_follow_now total already none = 0) ∧
    (∀ now reset : ℤ,
      (bot_low_quota_sleep (some (0, reset)) now).isSome = true) := by
  refine ⟨fun now => rfl, rfl, fun total already => ?_, fun now reset => ?_⟩
  · unfold caf_can_follow_now caf_assumed_remaining
    exact min_eq_right (le_max_right _ _)
  · simp [bot_low_quota_sleep, RATE_LIMIT_THRESHOLD]

/-! ## Batching lemmas (spec-modelled stage) -/

lemma make_batches_go_empty (n : Nat) (fuel : Nat) :
    make_batches_go n fuel [] = [] := by
  cases fuel <;> rfl


lemma make_batches_go_flatten (n : Nat) (hn : 0 < n) :
    ∀ (fuel : Nat) (l : List String), l.length ≤ fuel →
      (make_batches_go n fuel l).flatten = l := by
  intro fuel
  induction fuel with
  | zero =>
    intro l hl
    have : l = [] := List.eq_nil_of_length_eq_zero (Nat.le_zero.mp hl)
    simp [this, make_batches_go]
  | succ fuel ih =>
    intro l hl
    match l with
    | [] => simp [make_batches_go]
    | x :: xs =>
      have hdrop : ((x :: xs).drop n).length ≤ fuel := by
        rw [List.length_drop]
        simp only [List.length_cons] at hl ⊢
        omega
      simp only [make_batches_go, List.flatten_cons, ih _ hdrop]
      exact List.take_append_drop n (x :: xs)

lemma make_batches_go_length_le (n : Nat) (hn : 0 < n) :
    ∀ (fuel : Nat) (l : List String) (b : List String),
      b ∈ make_batches_go n fuel l → b.length ≤ n ∧ b ≠ [] := by
  obtain ⟨m, rfl⟩ : ∃ m, n = m + 1 := ⟨n - 1, by omega⟩
  intro fuel
  induction fuel with
  | zero => intro l b hb; simp [make_batches_go] at hb
  | succ fuel ih =>
    intro l b hb
    match l with
    | [] => simp [make_batches_go] at hb
    | x :: xs =>
      simp only [make_batches_go, List.mem_cons] at hb
      rcases hb with hb | hb
      · subst hb
        constructor
        · rw [List.length_take]
          exact Nat.min_le_left _ _
        · rw [List.take_succ_cons]
          exact List.cons_ne_nil _ _
      · exact ih _ b hb

lemma make_batches_go_dropLast (n : Nat) (hn : 0 < n) :
    ∀ (fuel : Nat) (l : List String) (b : List String),
      b ∈ (make_batches_go n fuel l).dropLast → b.length = n := by
  intro fuel
  induction fuel with
  | zero => intro l b hb; simp [make_batches_go] at hb
  | succ fuel ih =>
    intro l b hb
    match l with
    | [] => simp [make_batches_go] at hb
    | x :: xs =>
      simp only [make_batches_go] at hb
      rcases hgo : make_batches_go n fuel ((x :: xs).drop n) with _ | ⟨b2, rest⟩
      · rw [hgo] at hb
        simp at hb
      · rw [hgo, List.dropLast_cons₂, List.mem_cons] at hb
        rcases hb with hb | hb
        · subst hb
          have hdrop_ne : (x :: xs).drop n ≠ [] := by
            intro hd
            rw [hd, make_batches_go_empty] at hgo
            exact List.cons_ne_nil _ _ hgo.symm
          have hlen : n ≤ (x :: xs).length := by
            by_contra hle
            push_neg at hle
            exact hdrop_ne (List.drop_eq_nil_of_le (Nat.le_of_lt hle))
          rw [List.length_take]
          exact min_eq_left hlen
        · exact ih _ b (by rw [hgo]; exact hb)

lemma run_batches_pause_count :
    ∀ (bs : List (List String)),
      (run_batches bs).countP BatchEvent.isPause = bs.length - 1 := by
  intro bs
  induction bs with
  | nil => rfl
  | cons b rest ih =>
    cases rest with
    | nil => rfl
    | cons b2 rest2 =>
      have ih2 := ih
      simp only [run_batches, List.countP_cons] at ih2 ⊢
      simp only [List.length_cons] at ih2 ⊢
      simp [BatchEvent.isPause] at ih2 ⊢
      omega

/-- The 65-login example sequence of the batching claim. -/
def l65 : List String := (List.range 65).map toString

/-- Claim C9 (modelled from the spec, see `make_batches` and
`run_batches`): for every new-followers sequence and positive batch size,
the batching stage partitions the sequence exactly — concatenating the
batches gives back the sequence, every batch except possibly the last has
exactly the batch size, no batch exceeds the batch size or is empty — and
the inter-batch sleep is invoked exactly once between consecutive batches
and never after the final one (batch count minus one sleeps). -/
theorem batching_partitions (n : Nat) (l : List String) (hn : 0 < n) :
    (make_batches n l).flatten = l ∧
    (∀ b ∈ (make_batches n l).dropLast, b.length = n) ∧
    (∀ b ∈ make_batches n l, b.length ≤ n ∧ b ≠ []) ∧
    (process_followers_in_batches n l).countP BatchEvent.isPause =
      (make_batches n l).length - 1 := by
  refine ⟨?_, ?_, ?_, ?_⟩
  · exact make_batches_go_flatten n hn l.length l (Nat.le_refl _)
  · exact fun b hb => make_batches_go_dropLast n hn l.length l b hb
  · exact fun b hb => make_batches_go_length_le n hn l.length l b hb
  · exact run_batches_pause_count (make_batches n l)

/-- Witness for claim C9 at the spec's concrete example: 65 new
followers with batch size 30 yield batches of sizes `[30, 30, 5]` and
exactly 2 inter-batch sleeps. -/
theorem batching_partitions_witness :
    0 < 30 ∧
    ((make_batches 30 l65).flatten = l65 ∧
     (∀ b ∈ (make_batches 30 l65).dropLast, b.length = 30) ∧
     (∀ b ∈ make_batches 30 l65, b.length ≤ 30 ∧ b ≠ []) ∧
     (process_followers_in_batches 30 l65).countP BatchEvent.isPause =
       (make_batches 30 l65).length - 1) ∧
    (make_batches 30 l65).map List.length = [30, 30, 5] ∧
    (process_followers_in_batches 30 l65).countP BatchEvent.isPause = 2 :=
  ⟨by decide, batching_partitions 30 l65 (by decide), by decide, by decide⟩

/-- Claim C5: a follow call answered 404 on its first attempt returns
`False` immediately — one attempt consumed, no retry, no backoff sleep —
and the pipeline step for such a failed login leaves the counter and the
followed set unchanged while still appending the login to the attempt
trace and advancing the persisted cursor past it. -/
theorem not_found_no_retry (resp : Nat → HttpResp) (jitter : Nat → ℚ)
    (b : Bool) (h404 : resp 1 = .http 404 b) (fr : String → Bool)
    (c0 : Option String) (s : LoopState) (u : String)
    (hres : s.resume = true) (hu : u ≠ "") (hmem : u ∉ s.followed_users)
    (hfr : fr u = false) :
    follow_user resp jitter = ⟨false, 1, []⟩ ∧
    (main_step fr c0 s ⟨some u⟩).attempts = s.attempts ++ [u] ∧
    (main_step fr c0 s ⟨some u⟩).last_checked = some u ∧
    (main_step fr c0 s ⟨some u⟩).counter = s.counter ∧
    (main_step fr c0 s ⟨some u⟩).followed_users = s.followed_users := by
  have hrange : List.range' 1 MAX_RETRIES = [1, 2, 3, 4, 5] := rfl
  refine ⟨?_, ?_, ?_, ?_, ?_⟩
  · rw [follow_user, hrange]
    simp [follow_user_go, h404]
  all_goals rw [main_step_attempt fr c0 s u hres hu hmem]
  all_goals simp [hfr]

/-- Witness for claim C5 at a concrete input: every attempt answers 404,
the login is `"x"`, the state is fresh with `resume` already true. -/
theorem not_found_no_retry_witness :
    ((fun _ : Nat => HttpResp.http 404 false) 1 = HttpResp.http 404 false) ∧
    follow_user (fun _ => .http 404 false) (fun _ => 0) = ⟨false, 1, []⟩ ∧
    (main_step (fun _ => false) none ⟨true, [], none, 0, [], []⟩
        ⟨some "x"⟩).attempts = [] ++ ["x"] ∧
    (main_step (fun _ => false) none ⟨true, [], none, 0, [], []⟩
        ⟨some "x"⟩).last_checked = some "x" ∧
    (main_step (fun _ => false) none ⟨true, [], none, 0, [], []⟩
        ⟨some "x"⟩).counter = 0 ∧
    (main_step (fun _ => false) none ⟨true, [], none, 0, [], []⟩
        ⟨some "x"⟩).followed_users = [] :=
  ⟨rfl, not_found_no_retry (fun _ => .http 404 false) (fun _ => 0) false rfl
      (fun _ => false) none ⟨true, [], none, 0, [], []⟩ "x" rfl (by decide)
      (by decide) rfl⟩

/-- Claim C6: when every attempt of a follow call hits a network-level
transient error, the call retries through all `MAX_RETRIES` attempts,
sleeping `RETRY_BACKOFF_FACTOR ^ attempt + jitter` before each retry with
jitter in `[0, 1)` — a strictly increasing (hence increasing in
expectation) backoff sequence — then returns `False`; and a `False`
result does not abort the pipeline: the run still attempts every
remaining login. -/
theorem transient_error_backoff (resp : Nat → HttpResp) (jitter : Nat → ℚ)
    (hresp : ∀ a, resp a = .net_err)
    (hj : ∀ a, 0 ≤ jitter a ∧ jitter a < 1) :
    (follow_user resp jitter).success = false ∧
    (follow_user resp jitter).attempts_used = MAX_RETRIES ∧
    (follow_user resp jitter).backoff_sleeps =
      (List.range' 1 MAX_RETRIES).map
        (fun a => RETRY_BACKOFF_FACTOR ^ a + jitter a) ∧
    (follow_user resp jitter).backoff_sleeps.Chain' (· < ·) ∧
    (main_run (fun _ => (follow_user resp jitter).success) none [] 0
        (mkRecs ["a", "b"])).attempts = ["a", "b"] := by
  have hrange : List.range' 1 MAX_RETRIES = [1, 2, 3, 4, 5] := rfl
  have hfu : follow_user resp jitter =
      ⟨false, MAX_RETRIES,
        [RETRY_BACKOFF_FACTOR ^ 1 + jitter 1,
         RETRY_BACKOFF_FACTOR ^ 2 + jitter 2,
         RETRY_BACKOFF_FACTOR ^ 3 + jitter 3,
         RETRY_BACKOFF_FACTOR ^ 4 + jitter 4,
         RETRY_BACKOFF_FACTOR ^ 5 + jitter 5]⟩ := by
    rw [follow_user, hrange]
    simp [follow_user_go, hresp, MAX_RETRIES]
  obtain ⟨hj10, hj11⟩ := hj 1
  obtain ⟨hj20, hj21⟩ := hj 2
  obtain ⟨hj30, hj31⟩ := hj 3
  obtain ⟨hj40, hj41⟩ := hj 4
  obtain ⟨hj50, hj51⟩ := hj 5
  refine ⟨by rw [hfu], by rw [hfu], by rw [hfu, hrange]; simp, ?_, ?_⟩
  · rw [hfu]
    simp only [List.chain'_cons, List.chain'_singleton, and_true]
    norm_num [RETRY_BACKOFF_FACTOR]
    refine ⟨by linarith, by linarith, by linarith, by linarith⟩
  · have hs : (fun _ : String => (follow_user resp jitter).success) =
        fun _ => false := by
      funext v
      rw [hfu]
    rw [hs]
    decide

/-- Witness for claim C6 at a concrete input: every attempt raises a
network error, the jitter is always `1/2`. -/
theorem transient_error_backoff_witness :
    ((fun _ : Nat => HttpResp.net_err) 1 = HttpResp.net_err) ∧
    ((follow_user (fun _ => .net_err) (fun _ => 1/2)).success = false ∧
     (follow_user (fun _ => .net_err) (fun _ => 1/2)).attempts_used =
       MAX_RETRIES ∧
     (follow_user (fun _ => .net_err) (fun _ => 1/2)).backoff_sleeps =
       (List.range' 1 MAX_RETRIES).map
         (fun a => RETRY_BACKOFF_FACTOR ^ a + (fun _ : Nat => (1 : ℚ)/2) a) ∧
     (follow_user (fun _ => .net_err)
         (fun _ => 1/2)).backoff_sleeps.Chain' (· < ·) ∧
     (main_run
         (fun _ => (follow_user (fun _ => .net_err) (fun _ => 1/2)).success)
         none [] 0 (mkRecs ["a", "b"])).attempts = ["a", "b"]) :=
  ⟨rfl, transient_error_backoff (fun _ => .net_err) (fun _ => 1/2)
      (fun _ => rfl) (fun _ => by norm_num)⟩

/-- Claim C8: if a run over the follower list `h :: rest` (logins
pairwise distinct and non-empty) ends with the persisted cursor equal to
the most recent follower `h` (the head of page 1), then re-running the
pipeline over the unchanged list from the state that run left behind
issues zero follow attempts and leaves the followed set and the follow
counter unchanged. -/
theorem rerun_with_head_cursor_is_noop (fr fr2 : String → Bool)
    (c0 : Option String) (f0 : List String) (n0 : Nat)
    (h : String) (rest : List String)
    (hnd : (h :: rest).Nodup) (hne : ∀ u ∈ h :: rest, u ≠ "")
    (hcur : (main_run fr c0 f0 n0 (mkRecs (h :: rest))).last_checked =
      some h) :
    (main_run fr2 (main_run fr c0 f0 n0 (mkRecs (h :: rest))).last_checked
        (main_run fr c0 f0 n0 (mkRecs (h :: rest))).followed_users
        (main_run fr c0 f0 n0 (mkRecs (h :: rest))).counter
        (mkRecs (h :: rest))).attempts = [] ∧
    (main_run fr2 (main_run fr c0 f0 n0 (mkRecs (h :: rest))).last_checked
        (main_run fr c0 f0 n0 (mkRecs (h :: rest))).followed_users
        (main_run fr c0 f0 n0 (mkRecs (h :: rest))).counter
        (mkRecs (h :: rest))).followed_users =
      (main_run fr c0 f0 n0 (mkRecs (h :: rest))).followed_users ∧
    (main_run fr2 (main_run fr c0 f0 n0 (mkRecs (h :: rest))).last_checked
        (main_run fr c0 f0 n0 (mkRecs (h :: rest))).followed_users
        (main_run fr c0 f0 n0 (mkRecs (h :: rest))).counter
        (mkRecs (h :: rest))).counter =
      (main_run fr c0 f0 n0 (mkRecs (h :: rest))).counter := by
  set s1 := main_run fr c0 f0 n0 (mkRecs (h :: rest)) with hs1def
  have hs1' : s1 = (mkRecs (h :: rest)).foldl (main_step fr c0)
      (init_state c0 f0 n0) := hs1def
  have hhne : h ≠ "" := hne h (by simp)
  have hhnr : h ∉ rest := (List.nodup_cons.mp hnd).1
  have hrnd : rest.Nodup := (List.nodup_cons.mp hnd).2
  have hrne : ∀ u ∈ rest, u ≠ "" := fun u hu => hne u (by simp [hu])
  have hfoll : s1.followed_users = f0 ++ s1.successes := by
    rw [hs1']
    exact foldl_followed_eq fr c0 f0 (mkRecs (h :: rest))
      (init_state c0 f0 n0) (by simp [init_state])
  have hcur_inv : s1.last_checked = cursor_of s1.attempts c0 := by
    rw [hs1']
    exact foldl_cursor fr c0 (mkRecs (h :: rest)) (init_state c0 f0 n0)
      (by simp [init_state, cursor_of])
  have hrestf : ∀ v ∈ rest, v ∈ f0 := by
    by_cases hattnil : s1.attempts = []
    · -- no attempt was made, so the cursor is the one loaded at startup
      have hc0 : c0 = some h := by
        have hx : cursor_of ([] : List String) c0 = some h := by
          rw [← hattnil, ← hcur_inv]; exact hcur
        simpa [cursor_of] using hx
      have hrun : s1 = (mkRecs rest).foldl (main_step fr (some h))
          { init_state (some h) f0 n0 with resume := true } := by
        rw [hs1', hc0,
            show mkRecs (h :: rest) = ⟨some h⟩ :: mkRecs rest from rfl,
            List.foldl_cons,
            main_step_sentinel fr (some h) (init_state (some h) f0 n0) h rfl
              hhne rfl]
      obtain ⟨ha, _⟩ := foldl_resumed fr (some h) rest
        { init_state (some h) f0 n0 with resume := true } rfl hrnd hrne
      rw [← hrun, hattnil] at ha
      simp only [init_state] at ha
      have hfil : rest.filter (fun u => decide (u ∉ f0)) = [] := by
        simpa using ha.symm
      intro v hv
      have h2 := List.filter_eq_nil_iff.mp hfil v hv
      simpa using h2
    · -- some follow was attempted, and the last attempted login is h
      have hlast : s1.attempts.getLast? = some h := by
        rw [hcur_inv] at hcur
        unfold cursor_of at hcur
        rcases hgl : s1.attempts.getLast? with _ | u
        · exact absurd (List.getLast?_eq_none_iff.mp hgl) hattnil
        · rw [hgl] at hcur
          simpa using hcur
      have hmematt : h ∈ s1.attempts := getLast?_some_mem hlast
      cases hc0 : c0 with
      | none =>
        subst hc0
        obtain ⟨ha, _⟩ := foldl_resumed fr none (h :: rest)
          (init_state none f0 n0) rfl hnd hne
        rw [← hs1'] at ha
        simp only [init_state, List.nil_append] at ha
        by_cases hh : h ∈ f0
        · have ha2 : s1.attempts =
              rest.filter (fun u => decide (u ∉ f0)) := by
            rw [ha, List.filter_cons]
            simp [hh]
          have : h ∈ rest := List.mem_of_mem_filter (ha2 ▸ hmematt)
          exact absurd this hhnr
        · have ha2 : s1.attempts =
              h :: rest.filter (fun u => decide (u ∉ f0)) := by
            rw [ha, List.filter_cons]
            simp [hh]
          have htail : rest.filter (fun u => decide (u ∉ f0)) = [] :=
            @head_last_of_not_mem String h
              (rest.filter (fun u => decide (u ∉ f0)))
              (fun hc => hhnr (List.mem_of_mem_filter hc))
              (by rw [← ha2]; exact hlast)
          intro v hv
          by_contra hvf
          have hvmem : v ∈ rest.filter (fun u => decide (u ∉ f0)) :=
            List.mem_filter.mpr ⟨hv, by simpa using hvf⟩
          rw [htail] at hvmem
          exact absurd hvmem (List.not_mem_nil v)
      | some c =>
        by_cases hcls : c ∈ h :: rest
        · obtain ⟨p1, p2, hsplit⟩ := List.append_of_mem hcls
          have hnd2 : (p1 ++ c :: p2).Nodup := hsplit ▸ hnd
          have hcp1 : c ∉ p1 :=
            fun hm => (List.nodup_append.mp hnd2).2.2 hm (by simp)
          have hp2nd : p2.Nodup :=
            (List.nodup_cons.mp (List.nodup_append.mp hnd2).2.1).2
          have hcne2 : c ≠ "" := hne c hcls
          have hp2ne : ∀ u ∈ p2, u ≠ "" := fun u hu =>
            hne u (by rw [hsplit]; simp [hu])
          have hrun : s1 = (mkRecs p2).foldl (main_step fr (some c))
              { init_state (some c) f0 n0 with resume := true } := by
            rw [hs1', hc0, hsplit,
                show mkRecs (p1 ++ c :: p2) =
                  mkRecs p1 ++ ⟨some c⟩ :: mkRecs p2 by simp [mkRecs],
                List.foldl_append,
                foldl_not_resumed fr (some c) (mkRecs p1)
                  (init_state (some c) f0 n0) rfl ?_,
                List.foldl_cons,
                main_step_sentinel fr (some c) (init_state (some c) f0 n0) c
                  rfl hcne2 rfl]
            intro r hr
            obtain ⟨u, hu, rfl⟩ := List.mem_map.mp hr
            intro hcu
            have hcu' : c = u := by simpa using hcu
            exact hcp1 (hcu' ▸ hu)
          obtain ⟨ha, _⟩ := foldl_resumed fr (some c) p2
            { init_state (some c) f0 n0 with resume := true } rfl hp2nd hp2ne
          rw [← hrun] at ha
          simp only [init_state, List.nil_append] at ha
          have hhp2 : h ∈ p2 :=
            List.mem_of_mem_filter (ha ▸ hmematt)
          exfalso
          cases p1 with
          | nil =>
            have h1 : h = c := by simpa using congrArg (·.head?) hsplit
            have h2 : rest = p2 := by simpa using congrArg (·.tail) hsplit
            exact hhnr (h2 ▸ (h1 ▸ hhp2))
          | cons q p1' =>
            have h2 : rest = p1' ++ c :: p2 := by
              simpa using congrArg (·.tail) hsplit
            exact hhnr (h2 ▸ (by simp [hhp2] : h ∈ p1' ++ c :: p2))
        · have hrun : s1 = init_state (some c) f0 n0 := by
            rw [hs1', hc0]
            refine foldl_not_resumed fr (some c) (mkRecs (h :: rest))
              (init_state (some c) f0 n0) rfl ?_
            intro r hr
            obtain ⟨u, hu, rfl⟩ := List.mem_map.mp hr
            intro hcu
            have hcu' : c = u := by simpa using hcu
            exact hcls (hcu' ▸ hu)
          rw [hrun] at hattnil
          simp [init_state] at hattnil
  have hrest2 : ∀ v ∈ rest, v ∈ s1.followed_users := fun v hv => by
    rw [hfoll]
    exact List.mem_append.mpr (Or.inl (hrestf v hv))
  have hrun2 : main_run fr2 (some h) s1.followed_users s1.counter
      (mkRecs (h :: rest)) =
      { init_state (some h) s1.followed_users s1.counter with
          resume := true } := by
    rw [show main_run fr2 (some h) s1.followed_users s1.counter
          (mkRecs (h :: rest)) =
        (⟨some h⟩ :: mkRecs rest).foldl (main_step fr2 (some h))
          (init_state (some h) s1.followed_users s1.counter) from rfl,
        List.foldl_cons,
        main_step_sentinel fr2 (some h)
          (init_state (some h) s1.followed_users s1.counter) h rfl hhne rfl]
    exact foldl_resumed_all_followed fr2 (some h) rest _ rfl
      (fun u hu => Or.inr (hrest2 u hu))
  rw [hcur, hrun2]
  refine ⟨rfl, rfl, rfl⟩

/-- Witness for claim C8 at a concrete input: list `["a", "b"]`, no
cursor, follower `"b"` already followed; the first run attempts only
`"a"` and persists cursor `"a"` (the head), and the second run from the
resulting state attempts nothing and changes nothing. -/
theorem rerun_with_head_cursor_is_noop_witness :
    (main_run (fun _ => true) none ["b"] 0
        (mkRecs ["a", "b"])).last_checked = some "a" ∧
    ((main_run (fun _ => true)
        (main_run (fun _ => true) none ["b"] 0
          (mkRecs ["a", "b"])).last_checked
        (main_run (fun _ => true) none ["b"] 0
          (mkRecs ["a", "b"])).followed_users
        (main_run (fun _ => true) none ["b"] 0
          (mkRecs ["a", "b"])).counter
        (mkRecs ["a", "b"])).attempts = [] ∧
     (main_run (fun _ => true)
        (main_run (fun _ => true) none ["b"] 0
          (mkRecs ["a", "b"])).last_checked
        (main_run (fun _ => true) none ["b"] 0
          (mkRecs ["a", "b"])).followed_users
        (main_run (fun _ => true) none ["b"] 0
          (mkRecs ["a", "b"])).counter
        (mkRecs ["a", "b"])).followed_users =
      (main_run (fun _ => true) none ["b"] 0
        (mkRecs ["a", "b"])).followed_users ∧
     (main_run (fun _ => true)
        (main_run (fun _ => true) none ["b"] 0
          (mkRecs ["a", "b"])).last_checked
        (main_run (fun _ => true) none ["b"] 0
          (mkRecs ["a", "b"])).followed_users
        (main_run (fun _ => true) none ["b"] 0
          (mkRecs ["a", "b"])).counter
        (mkRecs ["a", "b"])).counter =
      (main_run (fun _ => true) none ["b"] 0
        (mkRecs ["a", "b"])).counter) :=
  ⟨by decide, rerun_with_head_cursor_is_noop (fun _ => true) (fun _ => true)
      none ["b"] 0 "a" ["b"] (by decide) (by decide) (by decide)⟩
